import Mathlib

/-!
Verification of the speedclaw agent-orchestration core: a shallow embedding
of the stream decoder, intent router, tool-call assembly, agent loop,
capability registry dispatch, planner timeline parsing, task scheduler
update rule, due-task query, and the multi-step plan runner, together with
theorems settling the specification claims about them.

Strings are modelled as `List Char`; JavaScript string operations
(`includes`, `replace` with a string pattern, `split`, `startsWith`,
`endsWith`, `toLowerCase`, `trim`) are implemented with their JavaScript
semantics over `List Char`.
-/

namespace Speedclaw

/-- JavaScript `needle` is a prefix of `hay` (used by `startsWith` and
substring search). -/
def isPrefixL : List Char → List Char → Bool
  | [], _ => true
  | _ :: _, [] => false
  | a :: as, b :: bs => a = b && isPrefixL as bs

/-- JavaScript `hay.includes(needle)`: substring containment. -/
def containsSub : List Char → List Char → Bool
  | [], needle => needle.isEmpty
  | c :: rest, needle => isPrefixL needle (c :: rest) || containsSub rest needle

/-- JavaScript `hay.replace(pat, "")` with a string pattern: remove the
first occurrence of `pat` (no change when `pat` does not occur). -/
def removeFirst (pat : List Char) : List Char → List Char
  | [] => []
  | c :: rest =>
    if !pat.isEmpty && isPrefixL pat (c :: rest) then
      (c :: rest).drop pat.length
    else
      c :: removeFirst pat rest

/-- Cons a character onto the first piece of a split result. -/
def consHead (c : Char) : List (List Char) → List (List Char)
  | [] => [[c]]
  | h :: t => (c :: h) :: t

/-- Fuel-indexed worker for JavaScript `s.split(sep)` with a non-empty
string separator. -/
def splitGo (sep : List Char) : Nat → List Char → List (List Char)
  | _, [] => [[]]
  | 0, s => [s]
  | fuel + 1, c :: rest =>
    if !sep.isEmpty && isPrefixL sep (c :: rest) then
      [] :: splitGo sep fuel ((c :: rest).drop sep.length)
    else
      consHead c (splitGo sep fuel rest)

/-- JavaScript `s.split(sep)` for a non-empty string separator. -/
def splitOnL (sep s : List Char) : List (List Char) :=
  splitGo sep s.length s

/-- The inline opening reasoning tag looked for by the stream decoder. -/
def thinkOpen : List Char := "<think>".toList

/-- The inline closing reasoning tag looked for by the stream decoder. -/
def thinkClose : List Char := "</think>".toList

/-- Decoder state carried across content fragments: the `insideThinkTag`
flag and the accumulated `fullContent` string. -/
structure DecState where
  insideThinkTag : Bool
  fullContent : List Char
deriving DecidableEq, Repr

/-- Initial decoder state: outside the reasoning tag, empty content. -/
def initDecState : DecState := ⟨false, []⟩

/-- Events the decoder emits for one content fragment: reasoning-token
callbacks and content-token callbacks. -/
inductive StreamEv where
  | reasoning (s : List Char)
  | token (s : List Char)
deriving DecidableEq, Repr

/-- One step of the decoder's inline `think`-tag handling for a single
`delta.content` fragment (router.ts lines 392-424): an empty fragment is
skipped; a fragment containing the full opening tag switches the state to
reasoning mode and drops the first tag occurrence; a fragment then
containing the full closing tag is split at it, the part before the first
closing tag going to reasoning and the rest (rejoined on the tag) to
content; otherwise the whole remaining fragment goes to reasoning or to
content according to the current mode. -/
def processContent (st : DecState) (text : List Char) : DecState × List StreamEv :=
  if text.isEmpty then (st, [])
  else
    let hasOpen := containsSub text thinkOpen
    let text1 := if hasOpen then removeFirst thinkOpen text else text
    let inside1 := if hasOpen then true else st.insideThinkTag
    if containsSub text1 thinkClose then
      let parts := splitOnL thinkClose text1
      let pre := parts.headD []
      let evs1 := if !pre.isEmpty then [StreamEv.reasoning pre] else []
      let afterThink := List.intercalate thinkClose parts.tail
      if !afterThink.isEmpty then
        (⟨false, st.fullContent ++ afterThink⟩, evs1 ++ [StreamEv.token afterThink])
      else
        (⟨false, st.fullContent⟩, evs1)
    else
      if inside1 then
        (⟨inside1, st.fullContent⟩, [StreamEv.reasoning text1])
      else
        (⟨inside1, st.fullContent ++ text1⟩, [StreamEv.token text1])

/-- Run the decoder's content handling over a sequence of content
fragments, threading the state and concatenating the emitted events. -/
def processFragments (st : DecState) : List (List Char) → DecState × List StreamEv
  | [] => (st, [])
  | t :: ts =>
    let r1 := processContent st t
    let r2 := processFragments r1.1 ts
    (r2.1, r1.2 ++ r2.2)

/-- Concatenation of all reasoning-event payloads, in emission order. -/
def reasoningText : List StreamEv → List Char
  | [] => []
  | StreamEv.reasoning s :: rest => s ++ reasoningText rest
  | StreamEv.token _ :: rest => reasoningText rest

/-- Concatenation of all content-token payloads, in emission order. -/
def contentText : List StreamEv → List Char
  | [] => []
  | StreamEv.reasoning _ :: rest => contentText rest
  | StreamEv.token s :: rest => s ++ contentText rest

/-- The fragment after the decoder's opening-tag removal: the source's
`text` variable once `text.replace("<think>", "")` has (conditionally)
run. -/
def strippedFragment (text : List Char) : List Char :=
  if containsSub text thinkOpen then removeFirst thinkOpen text else text

/-- The part of a fragment before its first closing tag: the source's
`parts[0]`. -/
def preClose (t : List Char) : List Char :=
  (splitOnL thinkClose t).headD []

/-- The part of a fragment after its first closing tag: the source's
`parts.slice(1).join("</think>")`. -/
def postClose (t : List Char) : List Char :=
  List.intercalate thinkClose (splitOnL thinkClose t).tail

/-! ## Intent classifier (router.ts `classifyIntent`) -/

/-- The five task categories produced by the intent classifier. -/
inductive TaskType where
  | SIMPLE_QA
  | TOOL_TASK
  | RESEARCH_TASK
  | COMPLEX_REASONING
  | LONG_RUNNING
deriving DecidableEq, Repr

/-- Keyword list for tool-invocation intent (router.ts `TOOL_KEYWORDS`). -/
def TOOL_KEYWORDS : List (List Char) :=
  ["send".toList, "schedule".toList, "post".toList, "create task".toList,
   "remind".toList, "telegram".toList, "discord".toList, "slack".toList,
   "webhook".toList, "http request".toList, "api call".toList,
   "set a reminder".toList, "cancel task".toList, "pause task".toList,
   "resume task".toList, "remember".toList, "save to memory".toList]

/-- Keyword list for research intent (router.ts `RESEARCH_KEYWORDS`). -/
def RESEARCH_KEYWORDS : List (List Char) :=
  ["search".toList, "find".toList, "latest".toList, "news".toList,
   "price".toList, "look up".toList, "browse".toList, "open the page".toList,
   "go to".toList, "visit".toList, "what is the current".toList,
   "who won".toList, "trending".toList]

/-- Keyword list for long-running-schedule intent
(router.ts `LONG_RUNNING_KEYWORDS`). -/
def LONG_RUNNING_KEYWORDS : List (List Char) :=
  ["monitor".toList, "every day".toList, "every hour".toList,
   "every minute".toList, "recurring".toList, "keep checking".toList,
   "daily".toList, "weekly".toList, "cron".toList]

/-- JavaScript `s.trim()`: strip whitespace from both ends. -/
def trimL (s : List Char) : List Char :=
  ((s.dropWhile Char.isWhitespace).reverse.dropWhile Char.isWhitespace).reverse

/-- The `message.toLowerCase().trim()` normalization applied by the
classifier before keyword matching. -/
def lowerTrim (message : List Char) : List Char :=
  trimL (message.map Char.toLower)

/-- JavaScript `s.endsWith(t)`. -/
def endsWithL (s t : List Char) : Bool :=
  isPrefixL t.reverse s.reverse

/-- The question-shape test of the classifier (router.ts lines 98-110):
ends with a question mark or starts with a question word or auxiliary
verb. -/
def isQuestion (lower : List Char) : Bool :=
  endsWithL lower "?".toList ||
  isPrefixL "what".toList lower ||
  isPrefixL "who".toList lower ||
  isPrefixL "how".toList lower ||
  isPrefixL "why".toList lower ||
  isPrefixL "when".toList lower ||
  isPrefixL "where".toList lower ||
  isPrefixL "is ".toList lower ||
  isPrefixL "are ".toList lower ||
  isPrefixL "can ".toList lower ||
  isPrefixL "does ".toList lower ||
  isPrefixL "do ".toList lower

/-- The intent classifier (router.ts `classifyIntent`): first-match-wins
keyword scan in the order long-running, tool, research; then the short
question heuristic; default complex reasoning. -/
def classifyIntent (message : List Char) : TaskType :=
  let lower := lowerTrim message
  if LONG_RUNNING_KEYWORDS.any (fun k => containsSub lower k) then
    TaskType.LONG_RUNNING
  else if TOOL_KEYWORDS.any (fun k => containsSub lower k) then
    TaskType.TOOL_TASK
  else if RESEARCH_KEYWORDS.any (fun k => containsSub lower k) then
    TaskType.RESEARCH_TASK
  else if message.length < 120 && isQuestion lower then
    TaskType.SIMPLE_QA
  else
    TaskType.COMPLEX_REASONING

/-! ## Tool-call fragment assembly (router.ts lines 426-444 and 460-473) -/

/-- One accumulated entry of the decoder's `toolCallsMap`. Empty lists
model both the empty string and an absent field, which JavaScript
truthiness conflates here. -/
structure TCEntry where
  id : List Char
  type : List Char
  name : List Char
  arguments : List Char
deriving DecidableEq, Repr

/-- One streamed tool-call fragment (`delta.tool_calls[j]`), with the
optional string fields flattened to lists where `[]` stands for an absent
or empty value. -/
structure ToolCallDelta where
  index : Nat
  tcId : List Char
  tcType : List Char
  fnName : List Char
  fnArgs : List Char
deriving DecidableEq, Repr

/-- A fully assembled tool call, with the nested `function` record of the
source flattened into `name` and `arguments`. -/
structure ToolCall where
  id : List Char
  type : List Char
  name : List Char
  arguments : List Char
deriving DecidableEq, Repr

/-- The in-place mutation of an existing map entry by one fragment
(router.ts lines 438-442): a non-empty fragment id overwrites the stored
id, a non-empty fragment name overwrites the stored name, and fragment
argument text is appended — never substituted — to the stored argument
string. -/
def updateEntry (tc : ToolCallDelta) (e : TCEntry) : TCEntry :=
  ⟨if !tc.tcId.isEmpty then tc.tcId else e.id,
   e.type,
   if !tc.fnName.isEmpty then tc.fnName else e.name,
   if !tc.fnArgs.isEmpty then e.arguments ++ tc.fnArgs else e.arguments⟩

/-- Process one tool-call fragment against the accumulation map, which is
kept as an association list in insertion order exactly as a JavaScript
`Map` iterates: a fresh index is appended with the fragment's id, type
(defaulted to "function") and name and empty arguments; then the entry
for that index is mutated by `updateEntry`. -/
def processToolCallDelta (m : List (Nat × TCEntry)) (tc : ToolCallDelta) :
    List (Nat × TCEntry) :=
  let m1 :=
    if (m.lookup tc.index).isNone then
      m ++ [(tc.index,
        ⟨tc.tcId,
         if tc.tcType.isEmpty then "function".toList else tc.tcType,
         tc.fnName, []⟩)]
    else m
  m1.map fun p =>
    if p.1 = tc.index then (p.1, updateEntry tc p.2) else p

/-- Accumulate a whole sequence of tool-call fragments. -/
def processToolCallDeltas (deltas : List ToolCallDelta) : List (Nat × TCEntry) :=
  deltas.foldl processToolCallDelta []

/-- On channel close, build the final tool-call array from the map in its
iteration order, hardcoding the "function" type (router.ts lines
460-473). -/
def buildToolCalls (m : List (Nat × TCEntry)) : List ToolCall :=
  m.map fun p => ⟨p.2.id, "function".toList, p.2.name, p.2.arguments⟩

/-! ## Streaming agent loop (agent.ts `runAgentLoopStreaming`) -/

/-- An assembled assistant message as delivered by the stream decoder's
`onDone`: nullable content and a tool-call list where `[]` models both
`null` and an empty array. -/
structure AssistantMsg where
  content : Option (List Char)
  tool_calls : List ToolCall
deriving DecidableEq, Repr

/-- The iteration cap of the agent loop (agent.ts `MAX_TOOL_LOOPS`). -/
def MAX_TOOL_LOOPS : Nat := 15

/-- The synthetic notice appended when the cap is reached. -/
def truncationNotice : List Char :=
  "\n\n[Reached maximum tool call limit. Stopping here.]".toList

/-- JavaScript `assistantMessage.content || ""`. -/
def contentOrEmpty (m : AssistantMsg) : List Char :=
  m.content.getD []

/-- The `while (loopCount < MAX_TOOL_LOOPS)` body of the streaming agent
loop, with the model abstracted as an oracle `resp` giving the assistant
message of the n-th invocation (1-based). `remaining` is the number of
loop iterations the guard still allows; the result is the final
`loopCount` paired with `finalResponse`, which stays empty when every
allowed iteration carried tool calls. -/
def agentLoopGo (resp : Nat → AssistantMsg) : Nat → Nat → Nat × List Char
  | 0, loopCount => (loopCount, [])
  | remaining + 1, loopCount =>
    let lc := loopCount + 1
    let m := resp lc
    if m.tool_calls.length > 0 then agentLoopGo resp remaining lc
    else (lc, contentOrEmpty m)

/-- The streaming agent loop (agent.ts lines 164-251): run the bounded
loop, then append the truncation notice whenever `loopCount` reached the
cap. Returns the number of model invocations performed and the final
response string. -/
def runAgentLoopStreaming (resp : Nat → AssistantMsg) : Nat × List Char :=
  let r := agentLoopGo resp MAX_TOOL_LOOPS 0
  if MAX_TOOL_LOOPS ≤ r.1 then (r.1, r.2 ++ truncationNotice) else r

/-! ## JSON values and the capability registry dispatch -/

/-- A parsed JSON value, as produced by the host `JSON.parse`. -/
inductive JsonValue where
  | jnull
  | jbool (b : Bool)
  | jnum (n : Int)
  | jstr (s : List Char)
  | jarr (elems : List JsonValue)
  | jobj (fields : List (List Char × JsonValue))

/-- JavaScript property access `v[k]` on a parsed JSON value: throws on
`null`, looks the key up on an object, and yields `undefined` (modelled
`none`) on every other value. -/
def jsGet : JsonValue → List Char → Except Unit (Option JsonValue)
  | JsonValue.jnull, _ => Except.error ()
  | JsonValue.jobj fields, k => Except.ok (fields.lookup k)
  | _, _ => Except.ok none

/-- JavaScript truthiness of a JSON value. -/
def truthy : JsonValue → Bool
  | JsonValue.jnull => false
  | JsonValue.jbool b => b
  | JsonValue.jnum n => n != 0
  | JsonValue.jstr s => !s.isEmpty
  | JsonValue.jarr _ => true
  | JsonValue.jobj _ => true

/-- JavaScript truthiness where `none` models `undefined`. -/
def truthyOpt : Option JsonValue → Bool
  | none => false
  | some v => truthy v

/-- `typeof x === "number"` on a possibly-undefined value. -/
def isJsonNumber : Option JsonValue → Bool
  | some (JsonValue.jnum _) => true
  | _ => false

/-- `typeof x === "string"` on a possibly-undefined value. -/
def isJsonString : Option JsonValue → Bool
  | some (JsonValue.jstr _) => true
  | _ => false

/-- The result every registry dispatch returns (types.ts
`ToolExecutionResult`). -/
structure ToolExecutionResult where
  success : Bool
  result : List Char
deriving DecidableEq, Repr

/-- A capability executor: takes the parsed arguments and either returns a
result or throws (modelled as `Except.error` carrying the thrown
message). -/
def ToolExecutor : Type := JsonValue → Except (List Char) ToolExecutionResult

/-- The registry dispatch (tools/index.ts `executeTool`): look the name up
in the registry (an association list over capability names), default an
empty argument string to `"{}"`, parse it with the host JSON parser
(abstracted as the `parseJson` argument, `none` modelling a parse
exception), invoke the executor, and convert a thrown failure into a
failed result. -/
def executeTool (registry : List (List Char × ToolExecutor))
    (parseJson : List Char → Option JsonValue)
    (name argsJson : List Char) : ToolExecutionResult :=
  match registry.lookup name with
  | none => ⟨false, "Unknown tool: ".toList ++ name⟩
  | some executor =>
    let effective := if argsJson.isEmpty then "\x7b\x7d".toList else argsJson
    match parseJson effective with
    | none => ⟨false, "Invalid tool arguments JSON: ".toList ++ argsJson⟩
    | some args =>
      match executor args with
      | Except.ok r => r
      | Except.error e => ⟨false, "Tool execution error: ".toList ++ e⟩

/-! ## Planner timeline parsing (planner.ts `parseTimeline`) -/

/-- A parsed planner timeline: the step list as raw JSON values, since the
fallback path of the parser returns steps it has not validated. -/
structure PlannerTimeline where
  steps : List JsonValue

/-- The step validation predicate of the primary path (planner.ts lines
143-148), including the JavaScript throw on a `null` step element (the
four property accesses throw exactly when the step is `null`, so reading
them together is equivalent to the short-circuiting source). -/
def isValidStepE (s : JsonValue) : Except Unit Bool :=
  match jsGet s "id".toList, jsGet s "title".toList,
      jsGet s "action".toList, jsGet s "description".toList with
  | Except.ok i, Except.ok t, Except.ok a, Except.ok d =>
    Except.ok (isJsonNumber i && isJsonString t &&
      isJsonString a && isJsonString d)
  | _, _, _, _ => Except.error ()

/-- JavaScript `Array.prototype.filter` with a predicate that may throw:
the first thrown failure propagates. -/
def filterE (p : JsonValue → Except Unit Bool) :
    List JsonValue → Except Unit (List JsonValue)
  | [] => Except.ok []
  | x :: xs =>
    match p x with
    | Except.error e => Except.error e
    | Except.ok b =>
      match filterE p xs with
      | Except.error e => Except.error e
      | Except.ok rest => Except.ok (if b then x :: rest else rest)

/-- The primary `try` block of `parseTimeline` (planner.ts lines 130-156).
The host regex scan for a `steps`-object pattern combined with
`JSON.parse` is abstracted as the input `m1`: `none` models both a
failed regex match and a parse exception, `some parsed` a successful
parse. Returns `some validSteps` when at least one step survives
validation, `Except.error` when the block threw, and `Except.ok none`
when it fell through. -/
def tryMainTimeline (m1 : Option JsonValue) :
    Except Unit (Option (List JsonValue)) :=
  match m1 with
  | none => Except.ok none
  | some parsed =>
    match jsGet parsed "steps".toList with
    | Except.error e => Except.error e
    | Except.ok stepsOpt =>
      match stepsOpt with
      | some (JsonValue.jarr steps) =>
        if steps.length > 0 then
          match filterE isValidStepE steps with
          | Except.error e => Except.error e
          | Except.ok valid =>
            if valid.length > 0 then Except.ok (some valid)
            else Except.ok none
        else Except.ok none
      | _ => Except.ok none

/-- The fallback `try` block of `parseTimeline` (planner.ts lines
159-169): `m2` abstracts the bare-array regex match plus `JSON.parse`;
only the first element's `id` and `title` are checked, for truthiness
only. -/
def tryFallback (m2 : Option JsonValue) :
    Except Unit (Option (List JsonValue)) :=
  match m2 with
  | none => Except.ok none
  | some (JsonValue.jarr arr) =>
    if arr.length > 0 then
      match jsGet (arr.headD JsonValue.jnull) "id".toList with
      | Except.error e => Except.error e
      | Except.ok idv =>
        if truthyOpt idv then
          match jsGet (arr.headD JsonValue.jnull) "title".toList with
          | Except.error e => Except.error e
          | Except.ok tv =>
            if truthyOpt tv then Except.ok (some arr) else Except.ok none
        else Except.ok none
    else Except.ok none
  | some _ => Except.ok none

/-- The whole of `parseTimeline`: the primary block's result when it
returned steps, otherwise (fall-through or caught exception) the fallback
block's result, otherwise no plan. -/
def parseTimeline (m1 m2 : Option JsonValue) : Option PlannerTimeline :=
  match tryMainTimeline m1 with
  | Except.ok (some valid) => some ⟨valid⟩
  | _ =>
    match tryFallback m2 with
    | Except.ok (some arr) => some ⟨arr⟩
    | _ => none

/-- Exception-free observer of step validity: a step is valid when it has
the four fields with the right primitive types (a non-object or `null`
step is invalid). -/
def validStep (s : JsonValue) : Bool :=
  match isValidStepE s with
  | Except.ok b => b
  | Except.error _ => false

/-- Every step of a parse result (when there is one) is valid. -/
def allStepsValid : Option PlannerTimeline → Bool
  | none => true
  | some t => t.steps.all validStep

/-! ## Task scheduler update rule (scheduler.ts `processTask`) -/

/-- Schedule kinds of a scheduled task. -/
inductive ScheduleType where
  | once
  | interval
  | cron
deriving DecidableEq, Repr

/-- Lifecycle status of a scheduled task. -/
inductive TaskStatus where
  | active
  | paused
  | completed
  | error
deriving DecidableEq, Repr

/-- Outcome of one task run. -/
inductive RunStatus where
  | success
  | error
deriving DecidableEq, Repr

/-- The `updates` record assembled by `processTask` before `db.updateTask`
applies it; `none` in an outer option means the field is not set, and
`next_run = some none` means the field is set to SQL `NULL`. Timestamps
are modelled as naturals. -/
structure TaskUpdates where
  status : Option TaskStatus
  next_run : Option (Option Nat)
  last_run : Option Nat
  last_result : Option (List Char)
deriving DecidableEq, Repr

/-- The update computation of `processTask` (scheduler.ts lines 74-94):
always set `last_run` and the truncated `last_result`; for `once` set
status `completed` and a null `next_run`, for `interval` set `next_run`
to now plus the stored period, for `cron` set the approximate next cron
occurrence; finally, an errored run overwrites the status with `error`. -/
def computeTaskUpdates (scheduleType : ScheduleType) (intervalMs : Nat)
    (cronNext : Option Nat) (now : Nat) (runStatus : RunStatus)
    (result : List Char) : TaskUpdates :=
  let u0 : TaskUpdates := ⟨none, none, some now, some (result.take 2000)⟩
  let u1 :=
    match scheduleType with
    | ScheduleType.once =>
      { u0 with status := some TaskStatus.completed, next_run := some none }
    | ScheduleType.interval =>
      { u0 with next_run := some (some (now + intervalMs)) }
    | ScheduleType.cron =>
      { u0 with next_run := some cronNext }
  if runStatus = RunStatus.error then
    { u1 with status := some TaskStatus.error }
  else u1

/-! ## Due-task query (db.ts `getDueTasks`) -/

/-- The slice of a stored scheduled-task row the due query inspects, with
the normalized `datetime` values modelled as naturals. -/
structure SchedTask where
  id : Nat
  status : TaskStatus
  next_run : Option Nat
deriving DecidableEq, Repr

/-- The row predicate of the due query:
`status = 'active' AND next_run IS NOT NULL AND datetime(next_run) <= datetime('now')`. -/
def isDue (now : Nat) (t : SchedTask) : Bool :=
  t.status == TaskStatus.active &&
    match t.next_run with
    | some nr => nr ≤ now
    | none => false

/-- The due-task query (db.ts `getDueTasks`) over the task table. -/
def getDueTasks (tasks : List SchedTask) (now : Nat) : List SchedTask :=
  tasks.filter (isDue now)

/-! ## Multi-step plan runner retry loop (chat route `POST`, stage 3) -/

/-- The per-step retry cap of the plan runner (`MAX_RETRIES`). -/
def MAX_RETRIES : Nat := 1

/-- What one step's retry loop did: how many executor runs it attempted,
whether one succeeded, and whether the give-up error event was emitted. -/
structure StepOutcome where
  attemptsMade : Nat
  succeeded : Bool
  errorEmitted : Bool
deriving DecidableEq, Repr

/-- The `while (retryCount <= MAX_RETRIES)` loop for one step, with the
Step Executor abstracted as an oracle `attempts` telling whether the
n-th attempt (1-based) succeeds. The fuel argument is the number of
iterations the guard still allows; on a failure in the last allowed
iteration the error event is emitted and the loop breaks. -/
def stepRetryGo (attempts : Nat → Bool) : Nat → Nat → StepOutcome
  | 0, made => ⟨made, false, false⟩
  | r + 1, made =>
    if attempts (made + 1) then ⟨made + 1, true, false⟩
    else if r = 0 then ⟨made + 1, false, true⟩
    else stepRetryGo attempts r (made + 1)

/-- Run one step's retry loop from its initial state. -/
def runStepWithRetry (attempts : Nat → Bool) : StepOutcome :=
  stepRetryGo attempts (MAX_RETRIES + 1) 0

/-- Stage 3 of the chat route: iterate over all plan steps in order,
running each step's retry loop; the loop over steps is unconditional, so
one outcome is produced per step regardless of failures. `attempts i n`
tells whether the n-th attempt of the i-th step (0-based step index)
succeeds. -/
def runPlanLoop (stepCount : Nat) (attempts : Nat → Nat → Bool) :
    List StepOutcome :=
  (List.range stepCount).map fun i => runStepWithRetry (attempts i)

/-! ## Concrete inputs used to instantiate the theorems -/

/-- The distinct tool-call array indices of a delta sequence, in order of
first appearance, which is the iteration order of the JavaScript `Map`
the decoder accumulates into. -/
def firstAppearanceIndices (deltas : List ToolCallDelta) : List Nat :=
  deltas.foldl
    (fun acc tc => if acc.contains tc.index then acc else acc ++ [tc.index])
    []

/-- A model oracle that requests a capability on each of the first
fourteen invocations and returns a clean final answer, with no tool
calls, on the fifteenth. -/
def cleanFinishResp : Nat → AssistantMsg := fun i =>
  if i < 15 then ⟨none, [⟨"1".toList, "function".toList, "f".toList, []⟩]⟩
  else ⟨some "done".toList, []⟩

/-- First step of the specification's planner example. -/
def demoStep1 : JsonValue :=
  JsonValue.jobj
    [("id".toList, JsonValue.jnum 1),
     ("title".toList, JsonValue.jstr "Search".toList),
     ("action".toList, JsonValue.jstr "search".toList),
     ("description".toList, JsonValue.jstr "find X".toList)]

/-- Second step of the specification's planner example. -/
def demoStep2 : JsonValue :=
  JsonValue.jobj
    [("id".toList, JsonValue.jnum 2),
     ("title".toList, JsonValue.jstr "Answer".toList),
     ("action".toList, JsonValue.jstr "final_answer".toList),
     ("description".toList, JsonValue.jstr "reply".toList)]

/-- The parsed `steps` object of the specification's planner example. -/
def demoTimelineJson : JsonValue :=
  JsonValue.jobj [("steps".toList, JsonValue.jarr [demoStep1, demoStep2])]

/-- A step value the fallback path accepts although it lacks the `action`
and `description` fields. -/
def demoBareStep : JsonValue :=
  JsonValue.jobj
    [("id".toList, JsonValue.jnum 1),
     ("title".toList, JsonValue.jstr "x".toList)]

/-- A capability executor that always throws. -/
def demoThrowingExecutor : ToolExecutor := fun _ => Except.error "boom".toList

/-- A host JSON parser stub that accepts every string as the empty
object. -/
def demoParse : List Char → Option JsonValue := fun _ => some (JsonValue.jobj [])

/-! ## Claim C1 — stream decoder inline think-tag routing -/

/-- Claim C1 is false on the code at the chunk sequence the claim itself
names: for the fragments `"<thi"`, `"nk>hello"`, `" world</thi"`,
`"nk>answer"` neither tag ever falls wholly inside one fragment, so the
decoder emits no reasoning event at all and routes everything, tag
characters included, to content events — instead of reasoning events
concatenating to `"hello world"` and content events concatenating to
`"answer"`. -/
theorem C1_counterexample :
    reasoningText (processFragments initDecState
      ["<thi".toList, "nk>hello".toList,
       " world</thi".toList, "nk>answer".toList]).2 ≠ "hello world".toList ∧
    reasoningText (processFragments initDecState
      ["<thi".toList, "nk>hello".toList,
       " world</thi".toList, "nk>answer".toList]).2 = [] ∧
    contentText (processFragments initDecState
      ["<thi".toList, "nk>hello".toList,
       " world</thi".toList, "nk>answer".toList]).2 =
      "<think>hello world</think>answer".toList := by decide

/-- Claim C1 (amended): the decoder keeps the reasoning-mode flag across
chunk boundaries and routes each content fragment by it, recognizing a
tag only when it falls wholly within a single fragment; the separation
point is the tag occurrence within the fragment, not the claimed tag
position in the full stream. Precisely: a tag-free non-empty fragment is
emitted whole as one reasoning event (mode kept) or one content event
according to the current mode; a fragment containing the opening tag
whose remainder has no closing tag switches into reasoning mode and
routes the entire remainder — any text that preceded the opening tag
included, a cross-contamination the original claim excludes — to one
reasoning event; a fragment whose remainder contains the closing tag
routes everything before the first closing tag to reasoning, everything
after it to content, and leaves reasoning mode. For the chunk sequence
`[{content:"<think>hello"}, {content:" world</think>answer"}]` the
reasoning events concatenate to `"hello world"` and the content events
to `"answer"`, which is also the assembled final content. -/
theorem C1_amended_think_routing :
    (∀ st text, st.insideThinkTag = true → text.isEmpty = false →
      containsSub text thinkOpen = false →
      containsSub text thinkClose = false →
      processContent st text = (st, [StreamEv.reasoning text])) ∧
    (∀ st text, st.insideThinkTag = false → text.isEmpty = false →
      containsSub text thinkOpen = false →
      containsSub text thinkClose = false →
      processContent st text =
        (⟨false, st.fullContent ++ text⟩, [StreamEv.token text])) ∧
    (∀ st text, containsSub text thinkOpen = true →
      containsSub (removeFirst thinkOpen text) thinkClose = false →
      processContent st text =
        (⟨true, st.fullContent⟩,
         [StreamEv.reasoning (removeFirst thinkOpen text)])) ∧
    (∀ st text, text.isEmpty = false →
      containsSub (strippedFragment text) thinkClose = true →
      processContent st text =
        (⟨false, st.fullContent ++ postClose (strippedFragment text)⟩,
         (if !(preClose (strippedFragment text)).isEmpty
          then [StreamEv.reasoning (preClose (strippedFragment text))]
          else []) ++
         (if !(postClose (strippedFragment text)).isEmpty
          then [StreamEv.token (postClose (strippedFragment text))]
          else []))) ∧
    reasoningText (processFragments initDecState
      ["<think>hello".toList, " world</think>answer".toList]).2 =
      "hello world".toList ∧
    contentText (processFragments initDecState
      ["<think>hello".toList, " world</think>answer".toList]).2 =
      "answer".toList ∧
    (processFragments initDecState
      ["<think>hello".toList, " world</think>answer".toList]).1.fullContent =
      "answer".toList := by
  refine ⟨?_, ?_, ?_, ?_, by decide, by decide, by decide⟩
  · intro st text hin hne hop hcl
    obtain ⟨b, fc⟩ := st
    dsimp only at hin
    subst hin
    simp [processContent, hne, hop, hcl]
  · intro st text hin hne hop hcl
    obtain ⟨b, fc⟩ := st
    dsimp only at hin
    subst hin
    simp [processContent, hne, hop, hcl]
  · intro st text hop hcl
    have hne : text.isEmpty = false := by
      cases text with
      | nil => simp [containsSub, thinkOpen] at hop
      | cons c rest => rfl
    simp only [processContent, hne, hop, hcl, Bool.false_eq_true,
      if_false, if_true]
  · intro st text hne hcl
    have hcl' : containsSub
        (if containsSub text thinkOpen then removeFirst thinkOpen text
         else text) thinkClose = true := by
      simpa only [strippedFragment] using hcl
    cases hX : List.intercalate thinkClose
        (splitOnL thinkClose (if containsSub text thinkOpen
          then removeFirst thinkOpen text else text)).tail with
    | nil =>
      have hX' : postClose (strippedFragment text) = [] := by
        simpa only [postClose, strippedFragment] using hX
      simp [processContent, strippedFragment, preClose, postClose,
        hne, hcl', hX, hX']
    | cons c cs =>
      have hX' : postClose (strippedFragment text) = c :: cs := by
        simpa only [postClose, strippedFragment] using hX
      simp [processContent, strippedFragment, preClose, postClose,
        hne, hcl', hX, hX']

/-- Witness for the amended claim C1: on the single fragment
`"a<think>b</think>c"` — both tags wholly within it — the decoder routes
`"ab"` (the pre-open-tag text included) to reasoning and `"c"` to
content, leaving reasoning mode off. -/
theorem C1_amended_witness :
    processContent initDecState "a<think>b</think>c".toList =
      (⟨false, "c".toList⟩,
       [StreamEv.reasoning "ab".toList, StreamEv.token "c".toList]) :=
  (C1_amended_think_routing.2.2.2.1 initDecState "a<think>b</think>c".toList
    (by decide) (by decide)).trans (by decide)

/-! ## Claim C10 — content preceding an opening tag in the same fragment -/

/-- Claim C10 is false on the code at the fragment `"</thi<think>nk>"`:
the fragment contains the opening tag and no closing tag, yet removing
the first opening-tag occurrence synthesizes the closing tag
`"</think>"`, so the decoder takes the closing-tag branch and emits no
event at all — the fragment text is routed neither to reasoning (as the
claim requires) nor to content, and reasoning mode is left off. -/
theorem C10_counterexample :
    containsSub "</thi<think>nk>".toList thinkOpen = true ∧
    containsSub "</thi<think>nk>".toList thinkClose = false ∧
    processContent initDecState "</thi<think>nk>".toList = (⟨false, []⟩, []) ∧
    removeFirst thinkOpen "</thi<think>nk>".toList ≠ [] := by decide

/-- Claim C10 (amended): for every content fragment that contains the
opening tag and — after the first opening-tag occurrence is removed —
still contains no closing tag, the decoder routes the entire fragment
minus that tag occurrence, including any text that preceded the opening
tag, to a single reasoning event, emits no content-token event, and
leaves the assembled final content unchanged. -/
theorem C10_amended_open_tag_routing :
    ∀ st text, containsSub text thinkOpen = true →
      containsSub (removeFirst thinkOpen text) thinkClose = false →
      processContent st text =
        (⟨true, st.fullContent⟩,
         [StreamEv.reasoning (removeFirst thinkOpen text)]) := by
  intro st text hop hcl
  have hne : text.isEmpty = false := by
    cases text with
    | nil => simp [containsSub, thinkOpen] at hop
    | cons c rest => rfl
  simp only [processContent, hne, hop, hcl, Bool.false_eq_true,
    if_false, if_true]

/-- Witness for the amended claim C10: the fragment `"a<think>b"` routes
`"ab"` — the pre-tag text included — to one reasoning event, keeping the
accumulated content untouched. -/
theorem C10_amended_witness :
    processContent ⟨false, "xy".toList⟩ "a<think>b".toList =
      (⟨true, "xy".toList⟩, [StreamEv.reasoning "ab".toList]) :=
  (C10_amended_open_tag_routing ⟨false, "xy".toList⟩ "a<think>b".toList
    (by decide) (by decide)).trans (by decide)

/-! ## Claim C6 — long-running keyword precedence in the router -/

/-- Claim C6: any input whose lower-cased, trimmed text contains a
long-running-schedule keyword is classified `LONG_RUNNING`, no matter
which other keyword sets or question shapes also match — the category-1
check is evaluated before all later checks. -/
theorem C6_long_running_precedence :
    ∀ message,
      (LONG_RUNNING_KEYWORDS.any fun k => containsSub (lowerTrim message) k) = true →
      classifyIntent message = TaskType.LONG_RUNNING := by
  intro message h
  simp [classifyIntent, h]

/-- Witness for claim C6: "Every day, send a message on telegram"
contains the long-running keyword "every day" as well as the tool
keywords "send" and "telegram", and is classified `LONG_RUNNING`. -/
theorem C6_witness :
    classifyIntent "Every day, send a message on telegram".toList =
      TaskType.LONG_RUNNING ∧
    (TOOL_KEYWORDS.any fun k =>
      containsSub (lowerTrim "Every day, send a message on telegram".toList) k) = true :=
  ⟨C6_long_running_precedence "Every day, send a message on telegram".toList
    (by decide), by decide⟩

/-! ## Claim C9 — due-task query filters on status and next-run time -/

/-- Claim C9: the due-task query returns exactly the tasks that are
`active` with a non-null next-eligible-time at or before now; in
particular no `paused`, `completed`, or `error` task is ever returned,
whatever its stored next-eligible-time. -/
theorem C9_due_query :
    (∀ tasks now t, t ∈ getDueTasks tasks now →
      t.status = TaskStatus.active ∧ ∃ nr, t.next_run = some nr ∧ nr ≤ now) ∧
    (∀ tasks now t, t.status ≠ TaskStatus.active →
      t ∉ getDueTasks tasks now) := by
  constructor
  · intro tasks now t ht
    have hd := (List.mem_filter.mp ht).2
    simp only [isDue, Bool.and_eq_true, beq_iff_eq] at hd
    refine ⟨hd.1, ?_⟩
    rcases hnr : t.next_run with _ | nr
    · rw [hnr] at hd
      simp at hd
    · rw [hnr] at hd
      exact ⟨nr, rfl, by simpa using hd.2⟩
  · intro tasks now t hstat hmem
    have hd := (List.mem_filter.mp hmem).2
    simp only [isDue, Bool.and_eq_true, beq_iff_eq] at hd
    exact hstat hd.1

/-- Witness for claim C9: a paused task whose stored next-eligible-time is
far in the past is not returned by the due query. -/
theorem C9_witness :
    (⟨1, TaskStatus.paused, some 0⟩ : SchedTask) ∉
      getDueTasks [⟨1, TaskStatus.paused, some 0⟩] 100 :=
  C9_due_query.2 [⟨1, TaskStatus.paused, some 0⟩] 100
    ⟨1, TaskStatus.paused, some 0⟩ (by decide)

/-! ## Claim C2 — iteration cap and truncation notice of the agent loop -/

/-- The loop counter never exceeds the fuel the guard allows. -/
theorem agentLoopGo_le (resp : Nat → AssistantMsg) :
    ∀ remaining loopCount,
      (agentLoopGo resp remaining loopCount).1 ≤ loopCount + remaining := by
  intro remaining
  induction remaining with
  | zero => intro loopCount; simp [agentLoopGo]
  | succ r ih =>
    intro loopCount
    simp only [agentLoopGo]
    split
    · have := ih (loopCount + 1)
      omega
    · simp

/-- When every invocation requests a capability, the loop exhausts its
fuel with an empty final response. -/
theorem agentLoopGo_all_tools (resp : Nat → AssistantMsg)
    (h : ∀ i, (resp i).tool_calls ≠ []) :
    ∀ remaining loopCount,
      agentLoopGo resp remaining loopCount = (loopCount + remaining, []) := by
  intro remaining
  induction remaining with
  | zero => intro loopCount; simp [agentLoopGo]
  | succ r ih =>
    intro loopCount
    have hlen : ((resp (loopCount + 1)).tool_calls.length > 0) := by
      cases hc : (resp (loopCount + 1)).tool_calls with
      | nil => exact absurd hc (h (loopCount + 1))
      | cons a as => simp
    simp only [agentLoopGo]
    rw [if_pos hlen, ih (loopCount + 1)]
    congr 1
    omega

/-- When the loop stops before exhausting its fuel, the stopping
invocation carried no tool calls and the final response is exactly its
content. -/
theorem agentLoopGo_early (resp : Nat → AssistantMsg) :
    ∀ remaining loopCount,
      (agentLoopGo resp remaining loopCount).1 < loopCount + remaining →
      (resp (agentLoopGo resp remaining loopCount).1).tool_calls = [] ∧
      (agentLoopGo resp remaining loopCount).2 =
        contentOrEmpty (resp (agentLoopGo resp remaining loopCount).1) := by
  intro remaining
  induction remaining with
  | zero => intro loopCount h; simp [agentLoopGo] at h
  | succ r ih =>
    intro loopCount h
    by_cases hlen : ((resp (loopCount + 1)).tool_calls.length > 0)
    · have heq : agentLoopGo resp (r + 1) loopCount =
          agentLoopGo resp r (loopCount + 1) := by
        simp only [agentLoopGo]
        rw [if_pos hlen]
      rw [heq] at h ⊢
      exact ih (loopCount + 1) (by omega)
    · have heq : agentLoopGo resp (r + 1) loopCount =
          (loopCount + 1, contentOrEmpty (resp (loopCount + 1))) := by
        simp only [agentLoopGo]
        rw [if_neg hlen]
      have hnil : (resp (loopCount + 1)).tool_calls = [] := by
        cases hc : (resp (loopCount + 1)).tool_calls with
        | nil => rfl
        | cons a as => exact absurd (by rw [hc]; simp) hlen
      rw [heq]
      exact ⟨hnil, rfl⟩

/-- Claim C2 is false on the code when the model uses all fifteen allowed
invocations and the fifteenth is a clean final answer carrying no
ToolCalls: the code still appends the truncation notice, so the final
answer is not exactly the last assistant message's content. -/
theorem C2_counterexample :
    (cleanFinishResp 15).tool_calls = [] ∧
    (runAgentLoopStreaming cleanFinishResp).1 = 15 ∧
    (runAgentLoopStreaming cleanFinishResp).2 ≠ "done".toList ∧
    (runAgentLoopStreaming cleanFinishResp).2 =
      "done".toList ++ truncationNotice := by decide

/-- Claim C2 (amended): the streaming agent loop performs at most the cap
of 15 model invocations; if every invocation requests a capability, it
stops at exactly 15 with the truncation notice as the whole final
answer; if it stops before the fifteenth invocation, the final answer is
exactly the content of the last assistant message, which carried no
ToolCalls; and the truncation notice is appended exactly when all 15
invocations were used — including the boundary case where the fifteenth
message carried no ToolCalls, whose clean answer is then suffixed with
the notice. -/
theorem C2_amended_cap_and_notice :
    ∀ resp : Nat → AssistantMsg,
      (runAgentLoopStreaming resp).1 ≤ MAX_TOOL_LOOPS ∧
      ((∀ i, (resp i).tool_calls ≠ []) →
        runAgentLoopStreaming resp = (MAX_TOOL_LOOPS, truncationNotice)) ∧
      ((runAgentLoopStreaming resp).1 < MAX_TOOL_LOOPS →
        (resp (runAgentLoopStreaming resp).1).tool_calls = [] ∧
        (runAgentLoopStreaming resp).2 =
          contentOrEmpty (resp (runAgentLoopStreaming resp).1)) ∧
      ((runAgentLoopStreaming resp).1 = MAX_TOOL_LOOPS →
        ∃ pre, (runAgentLoopStreaming resp).2 = pre ++ truncationNotice) := by
  intro resp
  have hle := agentLoopGo_le resp MAX_TOOL_LOOPS 0
  by_cases hcap : MAX_TOOL_LOOPS ≤ (agentLoopGo resp MAX_TOOL_LOOPS 0).1
  · have hrun : runAgentLoopStreaming resp =
        ((agentLoopGo resp MAX_TOOL_LOOPS 0).1,
         (agentLoopGo resp MAX_TOOL_LOOPS 0).2 ++ truncationNotice) := by
      simp only [runAgentLoopStreaming]
      rw [if_pos hcap]
    refine ⟨?_, ?_, ?_, ?_⟩
    · rw [hrun]; omega
    · intro hall
      rw [hrun, agentLoopGo_all_tools resp hall MAX_TOOL_LOOPS 0]
      simp
    · intro hlt
      rw [hrun] at hlt
      exfalso
      omega
    · intro _
      rw [hrun]
      exact ⟨_, rfl⟩
  · have hrun : runAgentLoopStreaming resp = agentLoopGo resp MAX_TOOL_LOOPS 0 := by
      simp only [runAgentLoopStreaming]
      rw [if_neg hcap]
    push_neg at hcap
    refine ⟨?_, ?_, ?_, ?_⟩
    · rw [hrun]; omega
    · intro hall
      have := agentLoopGo_all_tools resp hall MAX_TOOL_LOOPS 0
      rw [this] at hcap
      simp at hcap
    · intro _
      rw [hrun]
      exact agentLoopGo_early resp MAX_TOOL_LOOPS 0 (by omega)
    · intro heq
      rw [hrun] at heq
      exfalso
      omega

/-- Witness for the amended claim C2: on the oracle that answers cleanly
on the fifteenth invocation, the cap case applies and the final answer
carries the truncation notice as a suffix. -/
theorem C2_amended_witness :
    ∃ pre, (runAgentLoopStreaming cleanFinishResp).2 = pre ++ truncationNotice :=
  (C2_amended_cap_and_notice cleanFinishResp).2.2.2 (by decide)

/-! ## Claim C3 — terminal state of a `once` task after one run -/

/-- Claim C3 is false on the code for an errored run: `processTask` first
sets a `once` task's status to `completed`, but the trailing errored-run
check overwrites it with `error`; the next-eligible-time is still set to
null. -/
theorem C3_counterexample :
    (computeTaskUpdates ScheduleType.once 0 none 0 RunStatus.error "x".toList).status =
      some TaskStatus.error ∧
    (computeTaskUpdates ScheduleType.once 0 none 0 RunStatus.error "x".toList).status ≠
      some TaskStatus.completed ∧
    (computeTaskUpdates ScheduleType.once 0 none 0 RunStatus.error "x".toList).next_run =
      some none := by decide

/-- Claim C3 (amended): after exactly one execution of a `once` task the
next-eligible-time always becomes null, and the status becomes
`completed` when the run succeeded but `error` when it errored. -/
theorem C3_amended_once_terminal :
    ∀ intervalMs cronNext now runStatus result,
      (computeTaskUpdates ScheduleType.once intervalMs cronNext now
        runStatus result).next_run = some none ∧
      (computeTaskUpdates ScheduleType.once intervalMs cronNext now
        runStatus result).status =
        some (if runStatus = RunStatus.error then TaskStatus.error
              else TaskStatus.completed) := by
  intro intervalMs cronNext now runStatus result
  cases runStatus <;> simp [computeTaskUpdates]

/-- Witness for the amended claim C3: a successful `once` run at a
concrete time yields a null next-eligible-time and `completed` status. -/
theorem C3_amended_witness :
    (computeTaskUpdates ScheduleType.once 0 none 7 RunStatus.success
      "ok".toList).next_run = some none ∧
    (computeTaskUpdates ScheduleType.once 0 none 7 RunStatus.success
      "ok".toList).status =
      some (if RunStatus.success = RunStatus.error then TaskStatus.error
            else TaskStatus.completed) :=
  C3_amended_once_terminal 0 none 7 RunStatus.success "ok".toList

/-! ## Claim C5 — registry dispatch totality and failure conversion -/

/-- Claim C5: `executeTool` always returns a result record and never
propagates a failure: an unregistered name yields the failed
unknown-tool result, an argument string the host parser rejects yields
the failed invalid-JSON result (with the empty string defaulted to the
empty object before parsing), an executor throw is converted to the
failed execution-error result, and an executor success is returned
as-is. -/
theorem C5_dispatch_never_throws :
    ∀ (registry : List (List Char × ToolExecutor)) parseJson name argsJson,
      (registry.lookup name = none →
        executeTool registry parseJson name argsJson =
          ⟨false, "Unknown tool: ".toList ++ name⟩) ∧
      (∀ ex, registry.lookup name = some ex →
        parseJson (if argsJson.isEmpty then "\x7b\x7d".toList else argsJson) = none →
        executeTool registry parseJson name argsJson =
          ⟨false, "Invalid tool arguments JSON: ".toList ++ argsJson⟩) ∧
      (∀ ex args e, registry.lookup name = some ex →
        parseJson (if argsJson.isEmpty then "\x7b\x7d".toList else argsJson) = some args →
        ex args = Except.error e →
        executeTool registry parseJson name argsJson =
          ⟨false, "Tool execution error: ".toList ++ e⟩) ∧
      (∀ ex args r, registry.lookup name = some ex →
        parseJson (if argsJson.isEmpty then "\x7b\x7d".toList else argsJson) = some args →
        ex args = Except.ok r →
        executeTool registry parseJson name argsJson = r) := by
  intro registry parseJson name argsJson
  refine ⟨?_, ?_, ?_, ?_⟩
  · intro h
    unfold executeTool
    rw [h]
  · intro ex h hp
    unfold executeTool
    rw [h]
    dsimp only
    rw [hp]
  · intro ex args e h hp he
    unfold executeTool
    rw [h]
    dsimp only
    rw [hp]
    dsimp only
    rw [he]
  · intro ex args r h hp hr
    unfold executeTool
    rw [h]
    dsimp only
    rw [hp]
    dsimp only
    rw [hr]

/-- Witness for claim C5: dispatching to a registered executor that
throws returns the failed execution-error result instead of
propagating. -/
theorem C5_witness :
    executeTool [("t".toList, demoThrowingExecutor)] demoParse
      "t".toList "x".toList =
      ⟨false, "Tool execution error: boom".toList⟩ := by
  have h := (C5_dispatch_never_throws [("t".toList, demoThrowingExecutor)]
      demoParse "t".toList "x".toList).2.2.1 demoThrowingExecutor
      (JsonValue.jobj []) "boom".toList rfl rfl rfl
  exact h.trans (by decide)

/-! ## Claim C8 — per-step retry policy of the plan runner -/

/-- Unfolding equation of the retry loop for non-zero fuel. -/
theorem stepRetryGo_succ (attempts : Nat → Bool) (r made : Nat) :
    stepRetryGo attempts (r + 1) made =
      if attempts (made + 1) then ⟨made + 1, true, false⟩
      else if r = 0 then ⟨made + 1, false, true⟩
      else stepRetryGo attempts r (made + 1) := rfl

/-- One step's retry loop attempts at most twice: it stops on a first
success, retries exactly once on a first failure, and emits the give-up
error event exactly when both attempts fail. -/
theorem runStepWithRetry_spec (attempts : Nat → Bool) :
    runStepWithRetry attempts =
      if attempts 1 then ⟨1, true, false⟩
      else if attempts 2 then ⟨2, true, false⟩
      else ⟨2, false, true⟩ := by
  have e1 : runStepWithRetry attempts =
      if attempts 1 then ⟨1, true, false⟩
      else stepRetryGo attempts 1 1 := rfl
  have e2 : stepRetryGo attempts 1 1 =
      if attempts 2 then ⟨2, true, false⟩
      else ⟨2, false, true⟩ := rfl
  rw [e1, e2]

/-- Claim C8: the plan runner produces one outcome per plan step — a
failed step never aborts the remaining steps — and each step's retry
loop retries exactly once after a first failure, recording the error
event exactly when the retry also fails. -/
theorem C8_retry_once_then_continue :
    ∀ stepCount attempts,
      (runPlanLoop stepCount attempts).length = stepCount ∧
      ∀ i, i < stepCount →
        (runPlanLoop stepCount attempts)[i]? =
          some (if attempts i 1 then ⟨1, true, false⟩
                else if attempts i 2 then ⟨2, true, false⟩
                else ⟨2, false, true⟩) := by
  intro stepCount attempts
  constructor
  · simp [runPlanLoop]
  · intro i hi
    simp [runPlanLoop, List.getElem?_map, List.getElem?_range hi,
      runStepWithRetry_spec]

/-- Witness for claim C8: in a two-step plan where the first step fails
both attempts and the second succeeds only on its retry, the first
step's outcome records two attempts and the error event, and the second
step was still run. -/
theorem C8_witness :
    (runPlanLoop 2 fun i n => decide (i = 1) && decide (n = 2))[0]? =
      some ⟨2, false, true⟩ ∧
    (runPlanLoop 2 fun i n => decide (i = 1) && decide (n = 2))[1]? =
      some ⟨2, true, false⟩ := by
  have h0 := (C8_retry_once_then_continue 2
    (fun i n => decide (i = 1) && decide (n = 2))).2 0 (by decide)
  have h1 := (C8_retry_once_then_continue 2
    (fun i n => decide (i = 1) && decide (n = 2))).2 1 (by decide)
  exact ⟨h0.trans (by decide), h1.trans (by decide)⟩

/-! ## Claim C4 — tool-call fragment assembly -/

/-- Looking up a key after the per-index update step yields the updated
entry. -/
theorem lookup_map_upd (k : Nat) (g : TCEntry → TCEntry) :
    ∀ (m : List (Nat × TCEntry)) (e : TCEntry), List.lookup k m = some e →
      List.lookup k (m.map fun p => if p.1 = k then (p.1, g p.2) else p) =
        some (g e) := by
  intro m
  induction m with
  | nil => intro e h; simp at h
  | cons p rest ih =>
    obtain ⟨a, b⟩ := p
    intro e h
    simp only [List.lookup] at h
    simp only [List.map_cons]
    cases hba : (k == a) with
    | true =>
      have hk2 : k = a := by simpa using hba
      subst hk2
      rw [hba] at h
      injection h with hbe
      subst hbe
      have hif : ((k, b).1 = k) := rfl
      rw [if_pos hif]
      simp [List.lookup]
    | false =>
      rw [hba] at h
      have hk2 : ¬(a = k) := by
        intro hh
        rw [hh] at hba
        simp at hba
      simp only [hk2, if_false]
      simp only [List.lookup]
      rw [hba]
      exact ih e h

/-- The update step never changes the key sequence of the map. -/
theorem map_fst_upd (k : Nat) (g : TCEntry → TCEntry) :
    ∀ m : List (Nat × TCEntry),
      ((m.map fun p => if p.1 = k then (p.1, g p.2) else p).map Prod.fst) =
        m.map Prod.fst := by
  intro m
  induction m with
  | nil => rfl
  | cons p rest ih =>
    obtain ⟨a, b⟩ := p
    by_cases hk : a = k <;> simp [hk, ih]

/-- Containment in the key sequence coincides with a successful lookup. -/
theorem contains_fst_eq_isSome (k : Nat) :
    ∀ m : List (Nat × TCEntry),
      (m.map Prod.fst).contains k = (List.lookup k m).isSome := by
  intro m
  induction m with
  | nil => rfl
  | cons p rest ih =>
    obtain ⟨a, b⟩ := p
    cases hba : (k == a) with
    | true => simp [List.lookup, hba]
    | false => simpa [List.lookup, hba] using ih

/-- One fragment extends the key sequence exactly when its index is
fresh, appending the index at the end. -/
theorem keys_step (m : List (Nat × TCEntry)) (tc : ToolCallDelta) :
    (processToolCallDelta m tc).map Prod.fst =
      if (m.map Prod.fst).contains tc.index then m.map Prod.fst
      else m.map Prod.fst ++ [tc.index] := by
  simp only [processToolCallDelta, map_fst_upd, contains_fst_eq_isSome]
  cases hl : List.lookup tc.index m with
  | none => simp [map_fst_upd]
  | some e => simp [map_fst_upd]

/-- The key sequence of the accumulated map after any fragment prefix is
the first-appearance sequence of the fragment indices. -/
theorem keys_processToolCallDeltas_gen :
    ∀ (deltas : List ToolCallDelta) (m : List (Nat × TCEntry)),
      ((deltas.foldl processToolCallDelta m).map Prod.fst) =
        deltas.foldl
          (fun acc tc =>
            if acc.contains tc.index then acc else acc ++ [tc.index])
          (m.map Prod.fst) := by
  intro deltas
  induction deltas with
  | nil => intro m; rfl
  | cons tc rest ih =>
    intro m
    simp only [List.foldl_cons]
    rw [ih, keys_step]

/-- Claim C4 is false on the code: for the fragment sequence that opens
index 1 with id `"b1"`, then opens index 0, then delivers a second
non-empty id `"b2"` for index 1, the assembled array is in first-arrival
order (index 1 before index 0) and carries the last non-empty id
`"b2"` — not, as claimed, in index order with the first non-empty id
`"b1"`. -/
theorem C4_counterexample :
    buildToolCalls (processToolCallDeltas
      [⟨1, "b1".toList, [], "n1".toList, []⟩,
       ⟨0, "a0".toList, [], "n0".toList, []⟩,
       ⟨1, "b2".toList, [], [], []⟩]) =
      [⟨"b2".toList, "function".toList, "n1".toList, []⟩,
       ⟨"a0".toList, "function".toList, "n0".toList, []⟩] ∧
    buildToolCalls (processToolCallDeltas
      [⟨1, "b1".toList, [], "n1".toList, []⟩,
       ⟨0, "a0".toList, [], "n0".toList, []⟩,
       ⟨1, "b2".toList, [], [], []⟩]) ≠
      [⟨"a0".toList, "function".toList, "n0".toList, []⟩,
       ⟨"b1".toList, "function".toList, "n1".toList, []⟩] := by decide

/-- Claim C4 (amended): the decoder accumulates argument text per index
by concatenation, never replacement; it records the last (not first)
non-empty id and name seen for an index; on close it emits exactly one
ToolCall per populated index carrying the fixed "function" type, in
order of each index's first appearance (a JavaScript `Map` iterates in
insertion order) rather than in numeric index order; and the claim's own
two-fragment example assembles to the single argument string
`{"q":"x"}`. -/
theorem C4_amended_toolcall_assembly :
    (∀ m tc e, List.lookup tc.index m = some e →
      List.lookup tc.index (processToolCallDelta m tc) =
        some ⟨if !tc.tcId.isEmpty then tc.tcId else e.id,
              e.type,
              if !tc.fnName.isEmpty then tc.fnName else e.name,
              if !tc.fnArgs.isEmpty then e.arguments ++ tc.fnArgs
              else e.arguments⟩) ∧
    (∀ deltas, ((processToolCallDeltas deltas).map Prod.fst) =
      firstAppearanceIndices deltas) ∧
    buildToolCalls (processToolCallDeltas
      [⟨0, "call1".toList, [], "search".toList, "\x7b\"q\":".toList⟩,
       ⟨0, [], [], [], "\"x\"\x7d".toList⟩]) =
      [⟨"call1".toList, "function".toList, "search".toList,
        "\x7b\"q\":\"x\"\x7d".toList⟩] := by
  refine ⟨?_, ?_, by decide⟩
  · intro m tc e h
    have hn : (List.lookup tc.index m).isNone = false := by
      rw [h]; rfl
    simp only [processToolCallDelta, hn, Bool.false_eq_true, if_false]
    exact lookup_map_upd tc.index (updateEntry tc) m e h
  · intro deltas
    exact keys_processToolCallDeltas_gen deltas []

/-- Witness for the amended claim C4: a second fragment for an
already-open index appends its argument text to the stored `"ab"`,
yielding `"abcd"`. -/
theorem C4_amended_witness :
    List.lookup 0 (processToolCallDelta
      [(0, ⟨"id1".toList, "function".toList, "n".toList, "ab".toList⟩)]
      ⟨0, [], [], [], "cd".toList⟩) =
      some ⟨"id1".toList, "function".toList, "n".toList, "abcd".toList⟩ := by
  have h := C4_amended_toolcall_assembly.1
    [(0, ⟨"id1".toList, "function".toList, "n".toList, "ab".toList⟩)]
    ⟨0, [], [], [], "cd".toList⟩
    ⟨"id1".toList, "function".toList, "n".toList, "ab".toList⟩ rfl
  exact h.trans (by decide)

/-! ## Claim C7 — planner timeline parsing and validation -/

/-- Every element surviving the throwing filter satisfied the predicate
with `true`. -/
theorem filterE_mem (p : JsonValue → Except Unit Bool) :
    ∀ xs ys, filterE p xs = Except.ok ys → ∀ y ∈ ys, p y = Except.ok true := by
  intro xs
  induction xs with
  | nil =>
    intro ys h y hy
    simp [filterE] at h
    subst h
    simp at hy
  | cons x rest ih =>
    intro ys h y hy
    unfold filterE at h
    cases hp : p x with
    | error e => rw [hp] at h; simp at h
    | ok b =>
      rw [hp] at h
      cases hf : filterE p rest with
      | error e => rw [hf] at h; simp at h
      | ok zs =>
        rw [hf] at h
        simp only [Except.ok.injEq] at h
        subst h
        cases b with
        | true =>
          simp at hy
          rcases hy with hy | hy
          · subst hy; exact hp
          · exact ih zs hf y hy
        | false => exact ih zs hf y hy

/-- A step the throwing validator accepts is valid for the exception-free
observer. -/
theorem validStep_of_ok (y : JsonValue) (h : isValidStepE y = Except.ok true) :
    validStep y = true := by
  simp [validStep, h]

/-- Steps returned by the primary block all pass the four-field
validation. -/
theorem tryMain_valid (m1 : Option JsonValue) (steps : List JsonValue)
    (h : tryMainTimeline m1 = Except.ok (some steps)) :
    steps.all validStep = true := by
  cases m1 with
  | none => simp [tryMainTimeline] at h
  | some parsed =>
    unfold tryMainTimeline at h
    dsimp only at h
    cases hj : jsGet parsed "steps".toList with
    | error e => rw [hj] at h; simp at h
    | ok stepsOpt =>
      rw [hj] at h
      dsimp only at h
      cases stepsOpt with
      | none => simp at h
      | some v =>
        cases v with
        | jnull => simp at h
        | jbool b => simp at h
        | jnum n => simp at h
        | jstr s => simp at h
        | jobj fields => simp at h
        | jarr l =>
          dsimp only at h
          by_cases hlen : l.length > 0
          · rw [if_pos hlen] at h
            cases hf : filterE isValidStepE l with
            | error e => rw [hf] at h; simp at h
            | ok valid =>
              rw [hf] at h
              dsimp only at h
              by_cases hv : valid.length > 0
              · rw [if_pos hv] at h
                simp only [Except.ok.injEq, Option.some.injEq] at h
                subst h
                rw [List.all_eq_true]
                intro y hy
                exact validStep_of_ok y
                  (filterE_mem isValidStepE l valid hf y hy)
              · rw [if_neg hv] at h
                simp at h
          · rw [if_neg hlen] at h
            simp at h

/-- Claim C7 is false on the code: when the primary steps-object scan
finds nothing and the fallback bare-array scan parses an array whose
first element merely has truthy `id` and `title`, a plan is returned
whose step lacks the `action` and `description` fields — so not every
step of a returned plan has all four fields with correct primitive
types. -/
theorem C7_counterexample :
    (parseTimeline none (some (JsonValue.jarr [demoBareStep]))).isSome = true ∧
    allStepsValid (parseTimeline none (some (JsonValue.jarr [demoBareStep]))) =
      false := by
  exact ⟨rfl, rfl⟩

/-- Claim C7 (amended): when the primary block returns steps, the parse
result is exactly those steps and every one of them has the four fields
with correct primitive types; when neither the primary nor the fallback
block produces steps — any parse exception or validation emptiness
included — the parser returns "no plan" rather than throwing; but steps
returned through the bare-array fallback are only checked for a truthy
`id` and `title` on the first element and may lack the other fields.
The specification's own example object parses to its two steps in
order. -/
theorem C7_amended_parse :
    (∀ m1 m2 steps, tryMainTimeline m1 = Except.ok (some steps) →
      parseTimeline m1 m2 = some ⟨steps⟩ ∧ steps.all validStep = true) ∧
    (∀ m1 m2, (∀ s, tryMainTimeline m1 ≠ Except.ok (some s)) →
      (∀ s, tryFallback m2 ≠ Except.ok (some s)) →
      parseTimeline m1 m2 = none) ∧
    parseTimeline (some demoTimelineJson) none =
      some ⟨[demoStep1, demoStep2]⟩ := by
  refine ⟨?_, ?_, rfl⟩
  · intro m1 m2 steps h
    constructor
    · unfold parseTimeline
      rw [h]
    · exact tryMain_valid m1 steps h
  · intro m1 m2 hm hf
    unfold parseTimeline
    cases hmain : tryMainTimeline m1 with
    | ok o =>
      cases o with
      | some s => exact absurd hmain (hm s)
      | none =>
        cases hfb : tryFallback m2 with
        | ok o2 =>
          cases o2 with
          | some s => exact absurd hfb (hf s)
          | none => rfl
        | error e => rfl
    | error e =>
      cases hfb : tryFallback m2 with
      | ok o2 =>
        cases o2 with
        | some s => exact absurd hfb (hf s)
        | none => rfl
      | error e2 => rfl

/-- Witness for the amended claim C7: the specification's example object
parses through the primary block to a two-step plan whose steps are all
four-field valid. -/
theorem C7_amended_witness :
    parseTimeline (some demoTimelineJson) none =
      some ⟨[demoStep1, demoStep2]⟩ ∧
    ([demoStep1, demoStep2] : List JsonValue).all validStep = true :=
  C7_amended_parse.1 (some demoTimelineJson) none [demoStep1, demoStep2] rfl

end Speedclaw
